import Mathlib

/-!
Verification of a grid A* path-finding program (`a_star.py` and `Map.py`).

The embedding translates the Python source directly:

* Python integers become `Int`; grid coordinates become `Int × Int`
  (Python tuples/lists `[row, col]`).
* The numpy arrays `int_map`/`str_map` become `List (List Int)` /
  `List (List String)`; numpy basic indexing wraps negative indices that are
  within one extent of the length and raises `IndexError` otherwise, which we
  model with `Except Unit`.
* `heapq` is modelled by the exact CPython binary-heap algorithms
  (`_siftdown`/`_siftup`), specialised to `Node` ordered by `Node.total`
  (the only comparison `Node.__lt__` defines).  The index-bubbling loops are
  given an explicit fuel that provably dominates their iteration count
  (`pos` strictly decreases, resp. strictly increases below `endpos`),
  so the fuelled versions compute exactly the CPython result.
* Python exceptions propagate through `Except Unit`; the fallible search is
  additionally given a fuel parameter for its unbounded `while` loop.
-/

abbrev Pos := Int × Int

/-- Two grid coordinates differ by exactly one orthogonal step: exactly one
of the two components changes, and it changes by exactly 1. -/
def orthStep (a b : Pos) : Prop :=
  (|b.1 - a.1| = 1 ∧ b.2 = a.2) ∨ (b.1 = a.1 ∧ |b.2 - a.2| = 1)

instance (a b : Pos) : Decidable (orthStep a b) := by
  unfold orthStep; infer_instance

/-- Numpy basic indexing of a 1-D axis of length `l.length` at integer index
`i`: an index `i` with `-length ≤ i < length` is accepted (a negative `i`
counts from the end); anything else raises `IndexError`. -/
def npIndex {α : Type} (l : List α) (i : Int) : Except Unit α :=
  if i < -(l.length : Int) ∨ (l.length : Int) ≤ i then .error ()
  else
    match l.get? (if i < 0 then i + l.length else i).toNat with
    | some x => .ok x
    | none => .error ()

/-- Numpy assignment to a 1-D axis at integer index `i`, same index rules as
`npIndex`. -/
def npSet {α : Type} (l : List α) (i : Int) (v : α) : Except Unit (List α) :=
  if i < -(l.length : Int) ∨ (l.length : Int) ≤ i then .error ()
  else .ok (l.set (if i < 0 then i + l.length else i).toNat v)

/-- `Map_Obj.get_cell_value`: `return self.int_map[pos[0], pos[1]]`. -/
def get_cell_value (int_map : List (List Int)) (pos : Pos) : Except Unit Int :=
  match npIndex int_map pos.1 with
  | .error e => .error e
  | .ok row => npIndex row pos.2

/-- 2-D numpy assignment `grid[p[0]][p[1]] = v`. -/
def npSet2 {α : Type} (grid : List (List α)) (p : Pos) (v : α) :
    Except Unit (List (List α)) :=
  match npIndex grid p.1 with
  | .error e => .error e
  | .ok row =>
    match npSet row p.2 v with
    | .error e => .error e
    | .ok rowSet => npSet grid p.1 rowSet

/-- `Node` from `a_star.py`: position, optional parent node, and the three
cost fields (`actual`, `heuristic`, `total`), all initialised to 0 by the
constructor.  `__lt__` compares `total` only. -/
inductive Node where
  | mk (position : Pos) (parent : Option Node) (actual heuristicCost total : Int)

def Node.position : Node → Pos
  | .mk p _ _ _ _ => p

def Node.parent : Node → Option Node
  | .mk _ pr _ _ _ => pr

def Node.actual : Node → Int
  | .mk _ _ a _ _ => a

def Node.total : Node → Int
  | .mk _ _ _ _ t => t

/-- `heap[i] < heap[j]` as used by CPython `heapq`, i.e. `Node.__lt__`
comparing `total` (false when either index is out of range; in-range in every
actual call). -/
def heapLt (heap : List Node) (i j : Nat) : Bool :=
  match heap.get? i, heap.get? j with
  | some a, some b => decide (a.total < b.total)
  | _, _ => false

/-- CPython `heapq._siftdown(heap, startpos, pos)` after reading
`newitem = heap[pos]`; bubbles `newitem` up toward `startpos`.  The fuel is
one more than `pos`, which strictly decreases, so it never runs out. -/
def siftdownAux (newitem : Node) (startpos : Nat) :
    Nat → Nat → List Node → List Node
  | 0, pos, heap => heap.set pos newitem
  | fuel + 1, pos, heap =>
    if startpos < pos then
      let parentpos := (pos - 1) / 2
      match heap.get? parentpos with
      | some parent =>
        if newitem.total < parent.total then
          siftdownAux newitem startpos fuel parentpos (heap.set pos parent)
        else heap.set pos newitem
      | none => heap.set pos newitem
    else heap.set pos newitem

/-- CPython `heapq._siftdown(heap, startpos, pos)`. -/
def siftdown (heap : List Node) (startpos pos : Nat) : List Node :=
  match heap.get? pos with
  | some newitem => siftdownAux newitem startpos (pos + 1) pos heap
  | none => heap

/-- The `while childpos < endpos` loop of CPython `heapq._siftup`: moves the
smaller child up into `pos` repeatedly, returning the final heap and final
`pos`.  The fuel `endpos` dominates the iteration count (`pos` strictly
increases and stays below `endpos`). -/
def siftupLoop (endpos : Nat) : Nat → Nat → List Node → List Node × Nat
  | 0, pos, heap => (heap, pos)
  | fuel + 1, pos, heap =>
    let childpos := 2 * pos + 1
    if childpos < endpos then
      let rightpos := childpos + 1
      let childpos :=
        if rightpos < endpos ∧ ¬ heapLt heap childpos rightpos then rightpos
        else childpos
      match heap.get? childpos with
      | some c => siftupLoop endpos fuel childpos (heap.set pos c)
      | none => (heap, pos)
    else (heap, pos)

/-- CPython `heapq._siftup(heap, pos)`. -/
def siftup (heap : List Node) (pos : Nat) : List Node :=
  match heap.get? pos with
  | some newitem =>
    let r := siftupLoop heap.length heap.length pos heap
    siftdownAux newitem pos (r.2 + 1) r.2 r.1
  | none => heap

/-- CPython `heapq.heappush`. -/
def heappush (heap : List Node) (item : Node) : List Node :=
  let h := heap ++ [item]
  siftdown h 0 (h.length - 1)

/-- CPython `heapq.heappop`: pop the last element; if the heap is still
non-empty, return the root and sift the last element down from the root.
`none` models the `IndexError` on an empty heap (never hit: the search loop
is guarded by `while open_list`). -/
def heappop (heap : List Node) : Option (Node × List Node) :=
  match heap.getLast? with
  | none => none
  | some lastelt =>
    match heap.dropLast with
    | [] => some (lastelt, [])
    | h0 :: t => some (h0, siftup ((h0 :: t).set 0 lastelt) 0)


/-- `heuristic(node, goal_node, mode)` from `a_star.py`: Manhattan distance
for `mode == 1`, squared Euclidean distance otherwise. -/
def heuristic (node goal_node : Node) (mode : Int) : Int :=
  let x := |node.position.1 - goal_node.position.1|
  let y := |node.position.2 - goal_node.position.2|
  if mode = 1 then x + y else x ^ 2 + y ^ 2

/-- The parent chain of a node, current node first (the `while node is not
None` loop of `path_to_goal`). -/
def nodeChain : Node → List Pos
  | .mk p none _ _ _ => [p]
  | .mk p (some q) _ _ _ => p :: nodeChain q

/-- `path_to_goal(node)`: walk the parent chain and reverse it. -/
def path_to_goal (node : Node) : List Pos :=
  (nodeChain node).reverse

/-- One iteration of the child-generation loop of `a_star`: compute
`child_position`, skip it if its cell value is `-1` (a wall), otherwise
append it to the accumulated children.  A lookup outside the grid raises. -/
def checkChild (getCell : Pos → Except Unit Int) (acc : List Pos) (pos : Pos) :
    Except Unit (List Pos) :=
  match getCell pos with
  | .error e => .error e
  | .ok v => if v = -1 then .ok acc else .ok (acc ++ [pos])

/-- The `for dx, dy in [(0, 1), (1, 0), (0, -1), (-1, 0)]` loop of `a_star`:
`child_position = (position[0] + dy, position[1] + dx)`.  The Python loop
creates `Node(child_position, current_node)` objects; we record the accepted
positions (parent and costs are attached when the child is pushed, matching
the later mutation by `add_costs`). -/
def genChildren (getCell : Pos → Except Unit Int) (cur : Pos) :
    Except Unit (List Pos) :=
  match checkChild getCell [] (cur.1 + 1, cur.2) with
  | .error e => .error e
  | .ok c1 =>
    match checkChild getCell c1 (cur.1, cur.2 + 1) with
    | .error e => .error e
    | .ok c2 =>
      match checkChild getCell c2 (cur.1 - 1, cur.2) with
      | .error e => .error e
      | .ok c3 => checkChild getCell c3 (cur.1, cur.2 - 1)

/-- The `for child in children` loop of `a_star`, including `add_costs`.
Note the source bug kept faithfully here: `add_costs` is called with the
loop variable `child_position`, which after the generation loop always holds
the *last* generated position `(row, col - 1)` of the current node (the
`stale` argument), not the child's own position; the child's `actual` cost
therefore adds the value of the cell left of the current node.  The
`if child not in open_list` guard of the source compares fresh `Node`
objects by identity, so it is always true and every child is pushed. -/
def processChildren (getCell : Pos → Except Unit Int) (goal_node : Node)
    (mode : Int) (current : Node) (stale : Pos) (closed : List Pos) :
    List Pos → List Node → Except Unit (List Node)
  | [], openList => .ok openList
  | cpos :: rest, openList =>
    if cpos ∈ closed then
      processChildren getCell goal_node mode current stale closed rest openList
    else
      match getCell stale with
      | .error e => .error e
      | .ok v =>
        let actual := current.actual + v
        let h := heuristic (Node.mk cpos (some current) actual 0 0) goal_node mode
        processChildren getCell goal_node mode current stale closed rest
          (heappush openList (Node.mk cpos (some current) actual h (actual + h)))

/-- Result of `a_star`: a path, `None`, a propagated numpy `IndexError`, or
exhaustion of the loop fuel of the embedding. -/
inductive SearchResult where
  | found (path : List Pos)
  | noPath
  | outOfBounds
  | outOfFuel
deriving DecidableEq

/-- The `while open_list` loop of `a_star`. -/
def aStarLoop (getCell : Pos → Except Unit Int) (goal_node : Node)
    (mode : Int) : Nat → List Node → List Pos → SearchResult
  | 0, _, _ => .outOfFuel
  | fuel + 1, openList, closed =>
    match heappop openList with
    | none => .noPath
    | some (current, openRest) =>
      let closed := closed ++ [current.position]
      if current.position = goal_node.position then .found (path_to_goal current)
      else
        match genChildren getCell current.position with
        | .error _ => .outOfBounds
        | .ok children =>
          match processChildren getCell goal_node mode current
              (current.position.1, current.position.2 - 1) closed children
              openRest with
          | .error _ => .outOfBounds
          | .ok open2 => aStarLoop getCell goal_node mode fuel open2 closed

/-- `a_star(map, start, goal, heuristic_mode)`; the map is passed as its
`get_cell_value` method. -/
def a_star (getCell : Pos → Except Unit Int) (start goal : Pos) (mode : Int)
    (fuel : Nat) : SearchResult :=
  let start_node := Node.mk start none 0 0 0
  let goal_node := Node.mk goal none 0 0 0
  aStarLoop getCell goal_node mode fuel (heappush [] start_node) []

/-- The state of a `Map_Obj` (`Map.py`).  Python stores positions as
two-element lists; `end_goal_pos` is `Option` because `tick` tests it
against `None`.  File reading and image rendering are outside the model. -/
structure Map_Obj where
  int_map : List (List Int)
  str_map : List (List String)
  start_pos : Pos
  goal_pos : Pos
  end_goal_pos : Option Pos
  tmp_cell_value : Int
  tick_counter : Int
deriving DecidableEq

/-- The if/elif chain of `Map_Obj.pick_move` given the end goal. -/
def pick_move_aux (goal eg : Pos) : Pos :=
  if goal.1 < eg.1 then (goal.1 + 1, goal.2)
  else if eg.1 < goal.1 then (goal.1 - 1, goal.2)
  else if goal.2 < eg.2 then (goal.1, goal.2 + 1)
  else (goal.1, goal.2 - 1)

/-- `Map_Obj.pick_move`: subscripting `self.end_goal_pos` when it is `None`
raises, modelled by `error`. -/
def pick_move (m : Map_Obj) : Except Unit Pos :=
  match m.end_goal_pos with
  | none => .error ()
  | some eg => .ok (pick_move_aux m.goal_pos eg)

/-- `Map_Obj.replace_map_values(pos, value, goal_pos)`: write `value` into
`int_map[pos]`, its printable form into `str_map[pos]`, then mark
`str_map[goal_pos]` as the goal. -/
def replace_map_values (m : Map_Obj) (pos : Pos) (value : Int)
    (goal_pos : Pos) : Except Unit Map_Obj :=
  let str_value :=
    if value = 1 then " . "
    else if value = 2 then " , "
    else if value = 3 then " : "
    else if value = 4 then " ; "
    else toString value
  match npSet2 m.int_map pos value with
  | .error e => .error e
  | .ok im =>
    match npSet2 m.str_map pos str_value with
    | .error e => .error e
    | .ok sm =>
      match npSet2 sm goal_pos " G " with
      | .error e => .error e
      | .ok sm2 => .ok { m with int_map := im, str_map := sm2 }

/-- `Map_Obj.move_goal_pos(pos)`: save the value of the new goal cell into
`tmp_cell_value`, move `goal_pos`, and restore the previously saved value
at the vacated cell via `replace_map_values`. -/
def move_goal_pos (m : Map_Obj) (pos : Pos) : Except Unit Map_Obj :=
  let tmp_val := m.tmp_cell_value
  let tmp_pos := m.goal_pos
  match get_cell_value m.int_map pos with
  | .error e => .error e
  | .ok newTmp =>
    replace_map_values
      { m with tmp_cell_value := newTmp, goal_pos := (pos.1, pos.2) }
      tmp_pos tmp_val (pos.1, pos.2)

/-- A Python value passed as the `value` argument of
`Map_Obj.set_cell_value` (an `int`, or a `str` such as `' G '`). -/
inductive PyVal where
  | int (i : Int)
  | str (s : String)
deriving DecidableEq

/-- Numpy string-array assignment coerces the value to its string form. -/
def pyValToStr : PyVal → String
  | .int i => toString i
  | .str s => s

/-- Numpy integer-array assignment accepts only integer values. -/
def pyValToInt : PyVal → Except Unit Int
  | .int i => .ok i
  | .str _ => .error ()

/-- `Map_Obj.set_cell_value(pos, value, str_map=True)`: update the string
map by default, the integer map when `str_map` is false. -/
def set_cell_value (m : Map_Obj) (pos : Pos) (value : PyVal)
    ( str_map : Bool := true) : Except Unit Map_Obj :=
  if str_map then
    match npSet2 m.str_map pos (pyValToStr value) with
    | .error e => .error e
    | .ok sm => .ok { m with str_map := sm }
  else
    match pyValToInt value with
    | .error e => .error e
    | .ok v =>
      match npSet2 m.int_map pos v with
      | .error e => .error e
      | .ok im => .ok { m with int_map := im }

/-- `Map_Obj.tick()`: every call whose counter is not a multiple of 4 just
increments the counter; on a multiple of 4 the goal is moved toward the end
goal unless the end goal is unset or already reached, in which case the
method returns early (without incrementing).  Returns the updated map and
the returned `goal_pos`. -/
def tick (m : Map_Obj) : Except Unit (Map_Obj × Pos) :=
  if m.tick_counter % 4 = 0 then
    match m.end_goal_pos with
    | none => .ok (m, m.goal_pos)
    | some eg =>
      if eg = m.goal_pos then .ok (m, m.goal_pos)
      else
        match pick_move m with
        | .error e => .error e
        | .ok mv =>
          match move_goal_pos m mv with
          | .error e => .error e
          | .ok m2 =>
            let m3 := { m2 with tick_counter := m2.tick_counter + 1 }
            .ok (m3, m3.goal_pos)
  else
    let m3 := { m with tick_counter := m.tick_counter + 1 }
    .ok (m3, m3.goal_pos)

/-! ### Specification-side definitions
These express the spec's notions of path validity and path cost, used to
judge the search's output; they are not part of the program. -/

/-- The cost of a cell at non-negative in-range coordinates (spec-side). -/
def cellVal (grid : List (List Int)) (p : Pos) : Int :=
  (((grid.get? p.1.toNat).getD []).get? p.2.toNat).getD (-1)

/-- A coordinate with both components non-negative and inside the grid. -/
def inGrid (grid : List (List Int)) (p : Pos) : Bool :=
  decide (0 ≤ p.1) && decide (0 ≤ p.2) && decide (p.1.toNat < grid.length) &&
    decide (p.2.toNat < ((grid.get? p.1.toNat).getD []).length)

/-- The spec's path cost: sum of the costs of the cells entered along the
path, excluding the start cell. -/
def specPathCost (grid : List (List Int)) (path : List Pos) : Int :=
  (path.drop 1).foldl (fun a p => a + cellVal grid p) 0

/-- Consecutive list entries are orthogonal unit steps (boolean form). -/
def chainOrthB : List Pos → Bool
  | [] => true
  | [_] => true
  | a :: b :: rest => decide (orthStep a b) && chainOrthB (b :: rest)

/-- The spec's notion of a valid orthogonal obstacle-avoiding path from `s`
to `g`: starts at `s`, ends at `g`, moves in orthogonal unit steps, and
every visited cell is inside the grid and is not an obstacle. -/
def okPath (grid : List (List Int)) (s g : Pos) (path : List Pos) : Bool :=
  decide (path.head? = some s) && decide (path.getLast? = some g) &&
    chainOrthB path &&
    path.all (fun p => inGrid grid p && decide (cellVal grid p ≠ -1))

instance {ε α : Type} [DecidableEq ε] [DecidableEq α] :
    DecidableEq (Except ε α)
  | .error x, .error y =>
    if h : x = y then .isTrue (congrArg Except.error h)
    else .isFalse (fun hc => h (Except.error.inj hc))
  | .error _, .ok _ => .isFalse (fun hc => Except.noConfusion hc)
  | .ok _, .error _ => .isFalse (fun hc => Except.noConfusion hc)
  | .ok x, .ok y =>
    if h : x = y then .isTrue (congrArg Except.ok h)
    else .isFalse (fun hc => h (Except.ok.inj hc))

/-- Unfolding a successful `replace_map_values`: the integer map is the old
one with `value` written at `pos`, and only the two maps change. -/
theorem replace_map_values_ok (m : Map_Obj) (pos : Pos) (value : Int)
    (gp : Pos) (m2 : Map_Obj) (h : replace_map_values m pos value gp = .ok m2) :
    ∃ im sm2, npSet2 m.int_map pos value = .ok im ∧
      m2 = { m with int_map := im, str_map := sm2 } := by
  simp only [replace_map_values] at h
  split at h
  · simp at h
  · next im him =>
    split at h
    · simp at h
    · next sm hsm =>
      split at h
      · simp at h
      · next sm2 hsm2 =>
        simp only [Except.ok.injEq] at h
        exact ⟨im, sm2, him, h.symm⟩

/-- Unfolding a successful `move_goal_pos`: the goal moves to `pos`, the
saved cell value is refreshed from the new goal cell, the vacated cell gets
the previously saved value written back, and the other fields are kept. -/
theorem move_goal_pos_ok (m : Map_Obj) (pos : Pos) (mg : Map_Obj)
    (h : move_goal_pos m pos = .ok mg) :
    ∃ newTmp im sm2,
      get_cell_value m.int_map pos = .ok newTmp ∧
      npSet2 m.int_map m.goal_pos m.tmp_cell_value = .ok im ∧
      mg = { m with tmp_cell_value := newTmp, goal_pos := (pos.1, pos.2),
                    int_map := im, str_map := sm2 } := by
  simp only [move_goal_pos] at h
  split at h
  · simp at h
  · next newTmp hget =>
    obtain ⟨im, sm2, him, hm2⟩ := replace_map_values_ok _ _ _ _ _ h
    exact ⟨newTmp, im, sm2, hget, him, hm2⟩

/-- The grid witnessing the stale-`child_position` cost bug: a walled 2×3
room whose direct corridor passes a cost-50 cell while a detour through the
bottom row costs 4. -/
def gridC1 : List (List Int) :=
  [[-1,-1,-1,-1,-1],[-1,1,50,1,-1],[-1,1,1,1,-1],[-1,-1,-1,-1,-1]]

/-- C1: the claim states that Manhattan-mode A* returns a minimum-cost path.
The code violates it: `add_costs` is called with the stale loop variable
`child_position` (always the cell left of the current node) instead of the
child's own cell, so the search charges wrong step costs and here returns
the direct path through the cost-50 cell (total entered cost 51) although a
valid orthogonal obstacle-avoiding path of cost 4 exists. -/
theorem C1_stale_cost_returns_suboptimal_path :
    a_star (get_cell_value gridC1) (1, 1) (1, 3) 1 20 =
      .found [(1, 1), (1, 2), (1, 3)] ∧
    specPathCost gridC1 [(1, 1), (1, 2), (1, 3)] = 51 ∧
    okPath gridC1 (1, 1) (1, 3) [(1, 1), (2, 1), (2, 2), (2, 3), (1, 3)] = true ∧
    specPathCost gridC1 [(1, 1), (2, 1), (2, 2), (2, 3), (1, 3)] = 4 := by
  refine ⟨?_, ?_, ?_, ?_⟩ <;> decide

/-- C2 counterexample: the claim says every access with a negative row or
column fails with `OutOfBounds`; but numpy wraps negative indices within one
extent, so `get_cell_value` at row `-1` of a 2×2 grid returns the last row's
value `3` instead of failing. -/
theorem C2_negative_index_wraps :
    (-1 : Int) < 0 ∧ get_cell_value [[1, 2], [3, 4]] (-1, 0) = .ok 3 := by
  decide

/-- C2 (amended): accesses at a row at or beyond the number of rows, or
below minus the number of rows, fail; and when the row resolves, a column at
or beyond the row length, or below minus the row length, fails.  (Negative
indices within one extent wrap instead of failing.) -/
theorem C2_out_of_range_access_fails (grid : List (List Int)) (r c : Int) :
    ((grid.length : Int) ≤ r ∨ r < -(grid.length : Int) →
      get_cell_value grid (r, c) = .error ()) ∧
    (∀ row, npIndex grid r = .ok row →
      (row.length : Int) ≤ c ∨ c < -(row.length : Int) →
      get_cell_value grid (r, c) = .error ()) := by
  constructor
  · intro h
    have hr : npIndex grid r = .error () := by
      unfold npIndex
      rw [if_pos]
      omega
    simp [get_cell_value, hr]
  · intro row hrow h
    have hc : npIndex row c = .error () := by
      unfold npIndex
      rw [if_pos]
      omega
    simp [get_cell_value, hrow, hc]

/-- Witness for `C2_out_of_range_access_fails` at a concrete grid: row 2 of
a 2-row grid fails, and column 5 of a 2-column row fails. -/
theorem C2_out_of_range_access_fails_witness :
    get_cell_value [[1, 2], [3, 4]] (2, 0) = .error () ∧
    get_cell_value [[1, 2], [3, 4]] (0, 5) = .error () :=
  ⟨(C2_out_of_range_access_fails [[1, 2], [3, 4]] 2 0).1 (by decide),
   (C2_out_of_range_access_fails [[1, 2], [3, 4]] 0 5).2 [1, 2] (by decide)
     (by decide)⟩

/-- A map whose goal already equals its end goal, with the tick counter at a
multiple of 4: `tick` returns early on it. -/
def mC3 : Map_Obj :=
  { int_map := [[1]], str_map := [[" . "]], start_pos := (0, 0),
    goal_pos := (0, 0), end_goal_pos := some (0, 0), tmp_cell_value := 1,
    tick_counter := 0 }

/-- C3 counterexample: the claim says every `tick` call increments the
counter by exactly one, including calls where the end goal already equals
the goal.  On `mC3` (counter 0, end goal = goal) `tick` returns the map
unchanged: the counter stays 0 instead of becoming 1. -/
theorem C3_noop_tick_does_not_increment :
    tick mC3 = .ok (mC3, (0, 0)) ∧ mC3.tick_counter = 0 := by
  decide

/-- C3 (amended): a successful `tick` call either increments the counter by
exactly one, or — precisely when the counter is a multiple of 4 and the end
goal is unset or already equals the goal — returns early and leaves the
counter unchanged.  In particular the counter never decreases. -/
theorem C3_tick_counter_step (m m2 : Map_Obj) (p : Pos)
    (h : tick m = .ok (m2, p)) :
    (m2.tick_counter = m.tick_counter + 1 ∨
      (m2.tick_counter = m.tick_counter ∧ m.tick_counter % 4 = 0 ∧
        (m.end_goal_pos = none ∨ m.end_goal_pos = some m.goal_pos))) ∧
    m.tick_counter ≤ m2.tick_counter := by
  simp only [tick] at h
  split at h
  · next h4 =>
    split at h
    · next heg =>
      simp only [Except.ok.injEq, Prod.mk.injEq] at h
      obtain ⟨h1, _⟩ := h
      subst h1
      exact ⟨Or.inr ⟨rfl, h4, Or.inl heg⟩, le_refl _⟩
    · next eg heg =>
      split at h
      · next hge =>
        simp only [Except.ok.injEq, Prod.mk.injEq] at h
        obtain ⟨h1, _⟩ := h
        subst h1
        subst hge
        exact ⟨Or.inr ⟨rfl, h4, Or.inr heg⟩, le_refl _⟩
      · next hge =>
        split at h
        · simp at h
        · next mv hpm =>
          split at h
          · simp at h
          · next mg hmv =>
            simp only [Except.ok.injEq, Prod.mk.injEq] at h
            obtain ⟨h1, _⟩ := h
            obtain ⟨newTmp, im, sm2, _, _, hmg⟩ := move_goal_pos_ok _ _ _ hmv
            subst h1
            subst hmg
            exact ⟨Or.inl rfl, by simp⟩
  · next h4 =>
    simp only [Except.ok.injEq, Prod.mk.injEq] at h
    obtain ⟨h1, _⟩ := h
    subst h1
    exact ⟨Or.inl rfl, by simp⟩

/-- Witness for `C3_tick_counter_step`: a non-multiple-of-4 tick on a
concrete map increments the counter from 1 to 2. -/
theorem C3_tick_counter_step_witness :
    (({ mC3 with tick_counter := 2 } : Map_Obj).tick_counter =
        ({ mC3 with tick_counter := 1 } : Map_Obj).tick_counter + 1 ∨
      (({ mC3 with tick_counter := 2 } : Map_Obj).tick_counter =
          ({ mC3 with tick_counter := 1 } : Map_Obj).tick_counter ∧
        ({ mC3 with tick_counter := 1 } : Map_Obj).tick_counter % 4 = 0 ∧
        (({ mC3 with tick_counter := 1 } : Map_Obj).end_goal_pos = none ∨
          ({ mC3 with tick_counter := 1 } : Map_Obj).end_goal_pos =
            some ({ mC3 with tick_counter := 1 } : Map_Obj).goal_pos))) ∧
    ({ mC3 with tick_counter := 1 } : Map_Obj).tick_counter ≤
      ({ mC3 with tick_counter := 2 } : Map_Obj).tick_counter :=
  C3_tick_counter_step { mC3 with tick_counter := 1 }
    { mC3 with tick_counter := 2 } (0, 0) (by decide)

/-- A 3×3 grid whose center cell is surrounded on all four sides by obstacle
cells (value `-1`). -/
def gridC7 : List (List Int) := [[1, -1, 1], [-1, 1, -1], [1, -1, 1]]

/-- C7 counterexample: the goal `(1, 1)` is fully enclosed by obstacles with
no orthogonal opening, yet the search from `(2, 2)` does not return the
no-path sentinel: generating the neighbor `(3, 2)` performs an unguarded
cost lookup beyond the last row, which raises `IndexError`. -/
theorem C7_enclosed_goal_raises_out_of_bounds :
    (get_cell_value gridC7 (0, 1) = .ok (-1) ∧
      get_cell_value gridC7 (1, 0) = .ok (-1) ∧
      get_cell_value gridC7 (1, 2) = .ok (-1) ∧
      get_cell_value gridC7 (2, 1) = .ok (-1)) ∧
    a_star (get_cell_value gridC7) (2, 2) (1, 1) 1 10 = .outOfBounds := by
  decide

/-- C7 (amended): when the frontier actually empties without reaching the
goal, the search does return `None` — here the spec's enclosed-start
scenario, where every neighbor of the start is an obstacle inside the grid;
but an enclosed goal does not guarantee this outcome, since exploration that
generates a neighbor beyond the last row or column raises instead (see the
counterexample). -/
theorem C7_frontier_exhaustion_returns_none :
    a_star (get_cell_value gridC7) (1, 1) (0, 0) 1 10 = .noPath := by
  decide

/-- C8: the heuristic is a pure function of the two positions; mode 1 is the
Manhattan distance and mode 2 the squared Euclidean distance. -/
theorem C8_heuristic_modes (a b : Node) :
    heuristic a b 1 = |a.position.1 - b.position.1| +
      |a.position.2 - b.position.2| ∧
    heuristic a b 2 = (a.position.1 - b.position.1) ^ 2 +
      (a.position.2 - b.position.2) ^ 2 := by
  constructor
  · simp [heuristic]
  · simp [heuristic, sq_abs]

/-- C9: marking an overlay symbol via `set_cell_value` with the default
`str_map=True` flag only rewrites the string map; every cost lookup on the
integer map afterwards returns exactly what it returned before. -/
theorem C9_overlay_marking_preserves_costs (m : Map_Obj) (pos : Pos)
    (value : PyVal) (m2 : Map_Obj) (q : Pos)
    (h : set_cell_value m pos value true = .ok m2) :
    get_cell_value m2.int_map q = get_cell_value m.int_map q := by
  simp only [set_cell_value, if_pos] at h
  split at h
  · simp at h
  · next sm hsm =>
    simp only [Except.ok.injEq] at h
    subst h
    rfl

/-- Witness for `C9_overlay_marking_preserves_costs` on a concrete 1×1 map:
marking `' G '` leaves the single cost lookup unchanged. -/
theorem C9_overlay_marking_preserves_costs_witness :
    get_cell_value
        ({ mC3 with str_map := [[" G "]] } : Map_Obj).int_map (0, 0) =
      get_cell_value mC3.int_map (0, 0) :=
  C9_overlay_marking_preserves_costs mC3 (0, 0) (.str " G ")
    { mC3 with str_map := [[" G "]] } (0, 0) (by decide)

/-- C10: when start equals goal, the very first popped node is the goal, so
the search returns the single-element path immediately — for every cell
lookup function whatsoever (`getCell` is never consulted, so in particular
no cost or obstacle lookup and no neighbor expansion happens, even when the
shared position is an obstacle or outside the grid). -/
theorem C10_start_equals_goal_immediate (getCell : Pos → Except Unit Int)
    (p : Pos) (mode : Int) (fuel : Nat) :
    a_star getCell p p mode (fuel + 1) = .found [p] := by
  simp [a_star, aStarLoop, heappush, siftdown, siftdownAux, heappop,
    path_to_goal, nodeChain, Node.position]

/-! ### Frontier membership lemmas
The sift operations only move elements of the heap around (plus the new
item), so membership in the resulting heap implies membership in the input
heap (or equality with the inserted item). -/

theorem mem_siftdownAux (newitem : Node) (startpos : Nat) :
    ∀ (fuel pos : Nat) (heap : List Node) (x : Node),
      x ∈ siftdownAux newitem startpos fuel pos heap →
      x = newitem ∨ x ∈ heap := by
  intro fuel
  induction fuel with
  | zero =>
    intro pos heap x hx
    simp only [siftdownAux] at hx
    exact (List.mem_or_eq_of_mem_set hx).symm.imp_left id
  | succ n ih =>
    intro pos heap x hx
    simp only [siftdownAux] at hx
    split at hx
    · split at hx
      · next parent hget =>
        split at hx
        · rcases ih _ _ _ hx with h | h
          · exact Or.inl h
          · rcases List.mem_or_eq_of_mem_set h with h2 | h2
            · exact Or.inr h2
            · exact Or.inr (h2 ▸ List.get?_mem hget)
        · exact (List.mem_or_eq_of_mem_set hx).symm.imp_left id
      · exact (List.mem_or_eq_of_mem_set hx).symm.imp_left id
    · exact (List.mem_or_eq_of_mem_set hx).symm.imp_left id

theorem mem_siftdown (heap : List Node) (startpos pos : Nat) (x : Node)
    (hx : x ∈ siftdown heap startpos pos) : x ∈ heap := by
  rw [siftdown] at hx
  split at hx
  · next newitem hget =>
    rcases mem_siftdownAux _ _ _ _ _ _ hx with h | h
    · exact h ▸ List.get?_mem hget
    · exact h
  · exact hx

theorem mem_siftupLoop (endpos : Nat) :
    ∀ (fuel pos : Nat) (heap : List Node) (x : Node),
      x ∈ (siftupLoop endpos fuel pos heap).1 → x ∈ heap := by
  intro fuel
  induction fuel with
  | zero => intro pos heap x hx; exact hx
  | succ n ih =>
    intro pos heap x hx
    simp only [siftupLoop] at hx
    split at hx
    · split at hx
      · next c hget =>
        rcases List.mem_or_eq_of_mem_set (ih _ _ _ hx) with h | h
        · exact h
        · exact h ▸ List.get?_mem hget
      · exact hx
    · exact hx

theorem mem_siftup (heap : List Node) (pos : Nat) (x : Node)
    (hx : x ∈ siftup heap pos) : x ∈ heap := by
  rw [siftup] at hx
  split at hx
  · next newitem hget =>
    rcases mem_siftdownAux _ _ _ _ _ _ hx with h | h
    · exact h ▸ List.get?_mem hget
    · exact mem_siftupLoop _ _ _ _ _ h
  · exact hx

theorem mem_heappush (heap : List Node) (item x : Node)
    (hx : x ∈ heappush heap item) : x = item ∨ x ∈ heap := by
  rcases List.mem_append.1 (mem_siftdown _ _ _ _ hx) with h | h
  · exact Or.inr h
  · exact Or.inl (by simpa using h)

theorem mem_heappop (heap rest : List Node) (r : Node)
    (h : heappop heap = some (r, rest)) :
    r ∈ heap ∧ ∀ x ∈ rest, x ∈ heap := by
  rw [heappop] at h
  split at h
  · exact absurd h (by simp)
  · next lastelt hlast =>
    have hlmem : lastelt ∈ heap := List.mem_of_mem_getLast? hlast
    split at h
    · simp only [Option.some.injEq, Prod.mk.injEq] at h
      obtain ⟨h1, h2⟩ := h
      subst h1
      subst h2
      exact ⟨hlmem, by simp⟩
    · next h0 t hdrop =>
      simp only [Option.some.injEq, Prod.mk.injEq] at h
      obtain ⟨h1, h2⟩ := h
      subst h1
      have hsub : ∀ y ∈ (h0 :: t), y ∈ heap := by
        intro y hy
        exact List.dropLast_subset heap (hdrop ▸ hy)
      refine ⟨hsub h0 (by simp), ?_⟩
      intro x hx
      rw [← h2] at hx
      rcases List.mem_or_eq_of_mem_set (mem_siftup _ _ _ hx) with h3 | h3
      · exact hsub x h3
      · exact h3 ▸ hlmem

/-- Invariant of every node the search creates: its parent chain makes
orthogonal unit steps only and is rooted at a parentless node positioned at
the start `s`. -/
def chainOk (s : Pos) : Node → Bool
  | .mk p none _ _ _ => decide (p = s)
  | .mk p (some q) _ _ _ => decide (orthStep q.position p) && chainOk s q

theorem nodeChain_ne_nil : ∀ n : Node, nodeChain n ≠ []
  | .mk _ none _ _ _ => by simp [nodeChain]
  | .mk _ (some _) _ _ _ => by simp [nodeChain]

theorem nodeChain_head : ∀ n : Node, (nodeChain n).head? = some n.position
  | .mk _ none _ _ _ => by simp [nodeChain, Node.position]
  | .mk _ (some _) _ _ _ => by simp [nodeChain, Node.position]

theorem getLast_cons_ne_nil {α : Type} (a : α) (l : List α) (h : l ≠ []) :
    (a :: l).getLast? = l.getLast? := by
  cases l with
  | nil => exact absurd rfl h
  | cons b t => simp [List.getLast?_cons_cons]

theorem nodeChain_getLast (s : Pos) :
    ∀ n : Node, chainOk s n = true → (nodeChain n).getLast? = some s
  | .mk p none a h t, hok => by
    simp only [chainOk, decide_eq_true_eq] at hok
    simp [nodeChain, hok]
  | .mk p (some q) a h t, hok => by
    simp only [chainOk, Bool.and_eq_true, decide_eq_true_eq] at hok
    have ihq := nodeChain_getLast s q hok.2
    rw [nodeChain]
    rw [getLast_cons_ne_nil p (nodeChain q) (nodeChain_ne_nil q)]
    exact ihq

theorem chain_nodeChain (s : Pos) :
    ∀ n : Node, chainOk s n = true →
      List.Chain' (flip orthStep) (nodeChain n)
  | .mk p none a h t, hok => by simp [nodeChain]
  | .mk p (some q) a h t, hok => by
    simp only [chainOk, Bool.and_eq_true, decide_eq_true_eq] at hok
    have ihq := chain_nodeChain s q hok.2
    rw [nodeChain, List.chain'_cons']
    refine ⟨?_, ihq⟩
    intro y hy
    rw [nodeChain_head q] at hy
    simp only [Option.mem_def, Option.some.injEq] at hy
    subst hy
    exact hok.1

theorem path_to_goal_head (s : Pos) (n : Node) (hok : chainOk s n = true) :
    (path_to_goal n).head? = some s := by
  rw [path_to_goal, List.head?_reverse, nodeChain_getLast s n hok]

theorem path_to_goal_getLast (n : Node) :
    (path_to_goal n).getLast? = some n.position := by
  rw [path_to_goal, List.getLast?_reverse, nodeChain_head]

theorem path_to_goal_chain (s : Pos) (n : Node) (hok : chainOk s n = true) :
    List.Chain' orthStep (path_to_goal n) := by
  rw [path_to_goal, List.chain'_reverse]
  exact chain_nodeChain s n hok

theorem checkChild_mem (getCell : Pos → Except Unit Int) (acc : List Pos)
    (pos : Pos) (out : List Pos) (h : checkChild getCell acc pos = .ok out) :
    ∀ c ∈ out, c ∈ acc ∨ c = pos := by
  rw [checkChild] at h
  split at h
  · simp at h
  · split at h
    · simp only [Except.ok.injEq] at h
      subst h
      exact fun c hc => Or.inl hc
    · simp only [Except.ok.injEq] at h
      subst h
      intro c hc
      rcases List.mem_append.1 hc with h2 | h2
      · exact Or.inl h2
      · exact Or.inr (by simpa using h2)

theorem genChildren_orth (getCell : Pos → Except Unit Int) (cur : Pos)
    (children : List Pos) (h : genChildren getCell cur = .ok children) :
    ∀ c ∈ children, orthStep cur c := by
  have o1 : orthStep cur (cur.1 + 1, cur.2) := Or.inl ⟨by simp, rfl⟩
  have o2 : orthStep cur (cur.1, cur.2 + 1) := Or.inr ⟨rfl, by simp⟩
  have o3 : orthStep cur (cur.1 - 1, cur.2) := Or.inl ⟨by simp, rfl⟩
  have o4 : orthStep cur (cur.1, cur.2 - 1) := Or.inr ⟨rfl, by simp⟩
  rw [genChildren] at h
  split at h
  · simp at h
  · next c1 h1 =>
    split at h
    · simp at h
    · next c2 h2 =>
      split at h
      · simp at h
      · next c3 h3 =>
        intro c hc
        rcases checkChild_mem _ _ _ _ h c hc with hm | hm
        · rcases checkChild_mem _ _ _ _ h3 c hm with hm2 | hm2
          · rcases checkChild_mem _ _ _ _ h2 c hm2 with hm3 | hm3
            · rcases checkChild_mem _ _ _ _ h1 c hm3 with hm4 | hm4
              · exact absurd hm4 (List.not_mem_nil c)
              · exact hm4 ▸ o1
            · exact hm3 ▸ o2
          · exact hm2 ▸ o3
        · exact hm ▸ o4

theorem processChildren_inv (getCell : Pos → Except Unit Int)
    (goal_node : Node) (mode : Int) (current : Node) (stale : Pos)
    (closed : List Pos) (s : Pos) (hcur : chainOk s current = true) :
    ∀ (children : List Pos) (openList out : List Node),
      (∀ c ∈ children, orthStep current.position c) →
      (∀ n ∈ openList, chainOk s n = true) →
      processChildren getCell goal_node mode current stale closed children
        openList = .ok out →
      ∀ n ∈ out, chainOk s n = true := by
  intro children
  induction children with
  | nil =>
    intro openList out _ hopen h
    simp only [processChildren, Except.ok.injEq] at h
    exact h ▸ hopen
  | cons cpos rest ih =>
    intro openList out hch hopen h
    rw [processChildren] at h
    split at h
    · exact ih _ _ (fun c hc => hch c (List.mem_cons_of_mem _ hc)) hopen h
    · split at h
      · simp at h
      · next v hv =>
        refine ih _ _ (fun c hc => hch c (List.mem_cons_of_mem _ hc)) ?_ h
        intro n hn
        rcases mem_heappush _ _ _ hn with h2 | h2
        · subst h2
          simp only [chainOk, Bool.and_eq_true, decide_eq_true_eq]
          exact ⟨hch cpos (List.mem_cons_self _ _), hcur⟩
        · exact hopen n h2

/-- Main loop invariant: if every frontier node has a well-formed parent
chain rooted at `s` and the loop returns a path, that path starts at `s`,
ends at the goal position, and makes orthogonal unit steps. -/
theorem aStarLoop_found (getCell : Pos → Except Unit Int) (goal_node : Node)
    (mode : Int) (s : Pos) :
    ∀ (fuel : Nat) (openList : List Node) (closed path : List Pos),
      (∀ n ∈ openList, chainOk s n = true) →
      aStarLoop getCell goal_node mode fuel openList closed = .found path →
      path.head? = some s ∧ path.getLast? = some goal_node.position ∧
        List.Chain' orthStep path := by
  intro fuel
  induction fuel with
  | zero =>
    intro openList closed path _ hrun
    simp [aStarLoop] at hrun
  | succ n ih =>
    intro openList closed path hinv hrun
    rw [aStarLoop] at hrun
    split at hrun
    · simp at hrun
    · next current openRest hpop =>
      obtain ⟨hcurmem, hrest⟩ := mem_heappop _ _ _ hpop
      have hcur : chainOk s current = true := hinv current hcurmem
      split at hrun
      · next hgoal =>
        simp only [SearchResult.found.injEq] at hrun
        subst hrun
        exact ⟨path_to_goal_head s current hcur,
          hgoal ▸ path_to_goal_getLast current,
          path_to_goal_chain s current hcur⟩
      · next hgoal =>
        split at hrun
        · simp at hrun
        · next children hgen =>
          simp only [] at hrun
          split at hrun
          · simp at hrun
          · next open2 hproc =>
            refine ih open2 _ path ?_ hrun
            exact processChildren_inv getCell goal_node mode current _ _ s
              hcur children openRest open2
              (genChildren_orth getCell current.position children hgen)
              (fun m hm => hinv m (hrest m hm)) hproc

/-- C5: whenever the search returns a path, consecutive positions in it
differ by exactly one orthogonal step (every node pushed to the frontier is
one orthogonal step from its parent, and the path walks parent links). -/
theorem C5_path_contiguity (getCell : Pos → Except Unit Int) (s g : Pos)
    (mode : Int) (fuel : Nat) (path : List Pos)
    (h : a_star getCell s g mode fuel = .found path) :
    List.Chain' orthStep path := by
  simp only [a_star] at h
  have hinv : ∀ n ∈ heappush [] (Node.mk s none 0 0 0), chainOk s n = true := by
    intro n hn
    rcases mem_heappush _ _ _ hn with h2 | h2
    · subst h2
      simp [chainOk]
    · simp at h2
  exact (aStarLoop_found getCell (Node.mk g none 0 0 0) mode s fuel _ [] path
    hinv h).2.2

/-- C6: whenever the search returns a path, its first element is the start
and its last element is the goal; the path is `path_to_goal` of the popped
goal node, i.e. the reversed parent chain down to the parentless start
node. -/
theorem C6_path_endpoints (getCell : Pos → Except Unit Int) (s g : Pos)
    (mode : Int) (fuel : Nat) (path : List Pos)
    (h : a_star getCell s g mode fuel = .found path) :
    path.head? = some s ∧ path.getLast? = some g := by
  simp only [a_star] at h
  have hinv : ∀ n ∈ heappush [] (Node.mk s none 0 0 0), chainOk s n = true := by
    intro n hn
    rcases mem_heappush _ _ _ hn with h2 | h2
    · subst h2
      simp [chainOk]
    · simp at h2
  have hmain := aStarLoop_found getCell (Node.mk g none 0 0 0) mode s fuel _
    [] path hinv h
  exact ⟨hmain.1, by simpa [Node.position] using hmain.2.1⟩

/-- A walled 1×2 corridor used to witness C5 and C6 on a concrete run. -/
def gridW : List (List Int) := [[-1, -1, -1, -1], [-1, 1, 1, -1], [-1, -1, -1, -1]]

/-- Witness for `C5_path_contiguity` on a concrete search. -/
theorem C5_path_contiguity_witness :
    List.Chain' orthStep [((1 : Int), (1 : Int)), (1, 2)] :=
  C5_path_contiguity (get_cell_value gridW) (1, 1) (1, 2) 1 10
    [(1, 1), (1, 2)] (by decide)

/-- Witness for `C6_path_endpoints` on a concrete search. -/
theorem C6_path_endpoints_witness :
    ([((1 : Int), (1 : Int)), (1, 2)] : List Pos).head? = some (1, 1) ∧
    ([((1 : Int), (1 : Int)), (1, 2)] : List Pos).getLast? = some (1, 2) :=
  C6_path_endpoints (get_cell_value gridW) (1, 1) (1, 2) 1 10
    [(1, 1), (1, 2)] (by decide)

theorem npSet_ok {α : Type} (l : List α) (i : Int) (v : α) (l2 : List α)
    (h : npSet l i v = .ok l2) :
    ¬(i < -(l.length : Int) ∨ (l.length : Int) ≤ i) ∧
      l2 = l.set (if i < 0 then i + l.length else i).toNat v := by
  rw [npSet] at h
  split at h
  · simp at h
  · next hc =>
    simp only [Except.ok.injEq] at h
    exact ⟨hc, h.symm⟩

/-- After a successful 1-D numpy assignment, reading the same index returns
the written value. -/
theorem npIndex_npSet_self {α : Type} (l : List α) (i : Int) (v : α)
    (l2 : List α) (h : npSet l i v = .ok l2) : npIndex l2 i = .ok v := by
  obtain ⟨hc, hl2⟩ := npSet_ok l i v l2 h
  subst hl2
  rw [npIndex, List.length_set, if_neg hc]
  have hj : (if i < 0 then i + (l.length : Int) else i).toNat < l.length := by
    split <;> omega
  rw [List.get?_set_eq_of_lt v hj]

/-- After a successful 2-D numpy assignment, `get_cell_value` at the written
position returns the written value. -/
theorem get_after_npSet2 (g : List (List Int)) (p : Pos) (v : Int)
    (g2 : List (List Int)) (h : npSet2 g p v = .ok g2) :
    get_cell_value g2 p = .ok v := by
  rw [npSet2] at h
  split at h
  · simp at h
  · next row hrow =>
    split at h
    · simp at h
    · next rowSet hrowSet =>
      rw [get_cell_value, npIndex_npSet_self g p.1 rowSet g2 h]
      exact npIndex_npSet_self row p.2 v rowSet hrowSet

/-- `pick_move` always proposes a cell one orthogonal step from the goal. -/
theorem pick_move_aux_orth (goal eg : Pos) :
    orthStep goal (pick_move_aux goal eg) := by
  rw [pick_move_aux]
  split
  · exact Or.inl ⟨by simp, rfl⟩
  · split
    · exact Or.inl ⟨by simp, rfl⟩
    · split
      · exact Or.inr ⟨rfl, by simp⟩
      · exact Or.inr ⟨rfl, by simp⟩

/-- A `tick` whose counter is not a multiple of 4 only increments the
counter and returns the unchanged goal. -/
theorem tick_noop (m : Map_Obj) (h4 : ¬ m.tick_counter % 4 = 0) :
    tick m = .ok ({ m with tick_counter := m.tick_counter + 1 },
      m.goal_pos) := by
  rw [tick, if_neg h4]

/-- A `tick` on a multiple-of-4 counter with a pending distinct end goal:
the goal moves to `pick_move`'s proposal, the call returns the new goal,
the vacated cell gets the saved value written back, and the remaining
bookkeeping fields are preserved. -/
theorem tick_reloc (m : Map_Obj) (eg : Pos) (m2 : Map_Obj) (ret : Pos)
    (h4 : m.tick_counter % 4 = 0) (heg : m.end_goal_pos = some eg)
    (hne : eg ≠ m.goal_pos) (h : tick m = .ok (m2, ret)) :
    m2.goal_pos = pick_move_aux m.goal_pos eg ∧
    ret = m2.goal_pos ∧
    get_cell_value m2.int_map m.goal_pos = .ok m.tmp_cell_value ∧
    m2.end_goal_pos = m.end_goal_pos ∧
    m2.tick_counter = m.tick_counter + 1 ∧
    m2.start_pos = m.start_pos := by
  rw [tick, if_pos h4] at h
  split at h
  · next hnone => rw [heg] at hnone; exact absurd hnone (by simp)
  · next eg2 hsome =>
    rw [heg] at hsome
    simp only [Option.some.injEq] at hsome
    subst hsome
    rw [if_neg hne] at h
    split at h
    · next hpm =>
      rw [pick_move, heg] at hpm
      exact absurd hpm (by simp)
    · next mv hpm =>
      rw [pick_move, heg] at hpm
      simp only [Except.ok.injEq] at hpm
      subst hpm
      split at h
      · simp at h
      · next mg hmv =>
        obtain ⟨newTmp, im, sm2, hget, him, hmg⟩ := move_goal_pos_ok _ _ _ hmv
        simp only [Except.ok.injEq, Prod.mk.injEq] at h
        obtain ⟨hm2, hret⟩ := h
        subst hm2
        subst hmg
        refine ⟨rfl, hret.symm, ?_, rfl, rfl, rfl⟩
        exact get_after_npSet2 m.int_map m.goal_pos m.tmp_cell_value im him

/-- What a non-relocating `tick` call must leave untouched (spec-side). -/
def noopStep (a b : Map_Obj) : Prop :=
  b.goal_pos = a.goal_pos ∧ b.int_map = a.int_map ∧
    b.tmp_cell_value = a.tmp_cell_value ∧ b.end_goal_pos = a.end_goal_pos

/-- What the claim requires of the one relocating call from state `a` to
state `b` with returned position `ret`: the goal moves to the cell chosen
by the strict priority rule (`pick_move`), which is one orthogonal step
away; the call returns the new goal; and the vacated cell holds the
previously saved cost again (spec-side). -/
def relocStep (a b : Map_Obj) (ret : Pos) : Prop :=
  (∃ eg, a.end_goal_pos = some eg ∧
      b.goal_pos = pick_move_aux a.goal_pos eg) ∧
    orthStep a.goal_pos b.goal_pos ∧ ret = b.goal_pos ∧
    get_cell_value b.int_map a.goal_pos = .ok a.tmp_cell_value

theorem tick_noop_inv (m m2 : Map_Obj) (p : Pos)
    (h4 : ¬ m.tick_counter % 4 = 0) (h : tick m = .ok (m2, p)) :
    m2 = { m with tick_counter := m.tick_counter + 1 } ∧ p = m.goal_pos := by
  rw [tick_noop m h4] at h
  simp only [Except.ok.injEq, Prod.mk.injEq] at h
  exact ⟨h.1.symm, h.2.symm⟩

theorem tick_noop_step (m m2 : Map_Obj) (p : Pos)
    (h4 : ¬ m.tick_counter % 4 = 0) (h : tick m = .ok (m2, p)) :
    noopStep m m2 ∧ m2.tick_counter = m.tick_counter + 1 ∧ p = m.goal_pos := by
  obtain ⟨hm2, hp⟩ := tick_noop_inv m m2 p h4 h
  subst hm2
  exact ⟨⟨rfl, rfl, rfl, rfl⟩, rfl, hp⟩

/-- C4: starting from any map whose end goal is set and differs from the
goal (and whose saved `tmp_cell_value` is, as the constructor guarantees,
the current value of the goal cell), four consecutive successful `tick`
calls relocate the goal exactly once — by the cell `pick_move` chooses,
which is one orthogonal step away — the relocating call returns the new
goal position, the other three calls leave goal and cost grid untouched,
and afterwards the vacated cell holds its original cost again. -/
theorem C4_four_ticks_relocate_once (m m1 m2 m3 m4 : Map_Obj)
    (p1 p2 p3 p4 : Pos) (eg : Pos)
    (heg : m.end_goal_pos = some eg) (hne : eg ≠ m.goal_pos)
    (horig : get_cell_value m.int_map m.goal_pos = .ok m.tmp_cell_value)
    (h1 : tick m = .ok (m1, p1)) (h2 : tick m1 = .ok (m2, p2))
    (h3 : tick m2 = .ok (m3, p3)) (h4 : tick m3 = .ok (m4, p4)) :
    ((relocStep m m1 p1 ∧ noopStep m1 m2 ∧ noopStep m2 m3 ∧ noopStep m3 m4) ∨
      (noopStep m m1 ∧ relocStep m1 m2 p2 ∧ noopStep m2 m3 ∧ noopStep m3 m4) ∨
      (noopStep m m1 ∧ noopStep m1 m2 ∧ relocStep m2 m3 p3 ∧ noopStep m3 m4) ∨
      (noopStep m m1 ∧ noopStep m1 m2 ∧ noopStep m2 m3 ∧ relocStep m3 m4 p4)) ∧
    get_cell_value m4.int_map m.goal_pos =
      get_cell_value m.int_map m.goal_pos := by
  have hmod : m.tick_counter % 4 = 0 ∨ m.tick_counter % 4 = 1 ∨
      m.tick_counter % 4 = 2 ∨ m.tick_counter % 4 = 3 := by omega
  rcases hmod with hr0 | hr1 | hr2 | hr3
  · obtain ⟨hg1, hp1, hrest1, hend1, hcnt1, _⟩ :=
      tick_reloc m eg m1 p1 hr0 heg hne h1
    have hn2 : ¬ m1.tick_counter % 4 = 0 := by rw [hcnt1]; omega
    obtain ⟨hs2, hc2, hp2⟩ := tick_noop_step m1 m2 p2 hn2 h2
    have hn3 : ¬ m2.tick_counter % 4 = 0 := by rw [hc2, hcnt1]; omega
    obtain ⟨hs3, hc3, hp3⟩ := tick_noop_step m2 m3 p3 hn3 h3
    have hn4 : ¬ m3.tick_counter % 4 = 0 := by rw [hc3, hc2, hcnt1]; omega
    obtain ⟨hs4, hc4, hp4⟩ := tick_noop_step m3 m4 p4 hn4 h4
    refine ⟨Or.inl ⟨⟨⟨eg, heg, hg1⟩, ?_, hp1, hrest1⟩, hs2, hs3, hs4⟩, ?_⟩
    · rw [hg1]; exact pick_move_aux_orth m.goal_pos eg
    · rw [hs4.2.1, hs3.2.1, hs2.2.1, hrest1, horig]
  · obtain ⟨hs1, hc1, hp1⟩ := tick_noop_step m m1 p1 (by omega) h1
    obtain ⟨hs2, hc2, hp2⟩ :=
      tick_noop_step m1 m2 p2 (by rw [hc1]; omega) h2
    obtain ⟨hs3, hc3, hp3⟩ :=
      tick_noop_step m2 m3 p3 (by rw [hc2, hc1]; omega) h3
    have h40 : m3.tick_counter % 4 = 0 := by rw [hc3, hc2, hc1]; omega
    have heg3 : m3.end_goal_pos = some eg := by
      rw [hs3.2.2.2, hs2.2.2.2, hs1.2.2.2, heg]
    have hne3 : eg ≠ m3.goal_pos := by
      rw [hs3.1, hs2.1, hs1.1]; exact hne
    obtain ⟨hg4, hp4, hrest4, _, _, _⟩ :=
      tick_reloc m3 eg m4 p4 h40 heg3 hne3 h4
    refine ⟨Or.inr (Or.inr (Or.inr
      ⟨hs1, hs2, hs3, ⟨eg, heg3, hg4⟩, ?_, hp4, hrest4⟩)), ?_⟩
    · rw [hg4]; exact pick_move_aux_orth m3.goal_pos eg
    · have hfin := hrest4
      rw [hs3.1, hs2.1, hs1.1] at hfin
      rw [hs3.2.2.1, hs2.2.2.1, hs1.2.2.1] at hfin
      rw [hfin, horig]
  · obtain ⟨hs1, hc1, hp1⟩ := tick_noop_step m m1 p1 (by omega) h1
    obtain ⟨hs2, hc2, hp2⟩ :=
      tick_noop_step m1 m2 p2 (by rw [hc1]; omega) h2
    have h30 : m2.tick_counter % 4 = 0 := by rw [hc2, hc1]; omega
    have heg2 : m2.end_goal_pos = some eg := by
      rw [hs2.2.2.2, hs1.2.2.2, heg]
    have hne2 : eg ≠ m2.goal_pos := by
      rw [hs2.1, hs1.1]; exact hne
    obtain ⟨hg3, hp3, hrest3, hend3, hcnt3, _⟩ :=
      tick_reloc m2 eg m3 p3 h30 heg2 hne2 h3
    have hn4 : ¬ m3.tick_counter % 4 = 0 := by rw [hcnt3, hc2, hc1]; omega
    obtain ⟨hs4, hc4, hp4⟩ := tick_noop_step m3 m4 p4 hn4 h4
    refine ⟨Or.inr (Or.inr (Or.inl
      ⟨hs1, hs2, ⟨⟨eg, heg2, hg3⟩, ?_, hp3, hrest3⟩, hs4⟩)), ?_⟩
    · rw [hg3]; exact pick_move_aux_orth m2.goal_pos eg
    · have hfin := hrest3
      rw [hs2.1, hs1.1] at hfin
      rw [hs2.2.2.1, hs1.2.2.1] at hfin
      rw [hs4.2.1, hfin, horig]
  · obtain ⟨hs1, hc1, hp1⟩ := tick_noop_step m m1 p1 (by omega) h1
    have h20 : m1.tick_counter % 4 = 0 := by rw [hc1]; omega
    have heg1 : m1.end_goal_pos = some eg := by rw [hs1.2.2.2, heg]
    have hne1 : eg ≠ m1.goal_pos := by rw [hs1.1]; exact hne
    obtain ⟨hg2, hp2, hrest2, hend2, hcnt2, _⟩ :=
      tick_reloc m1 eg m2 p2 h20 heg1 hne1 h2
    have hn3 : ¬ m2.tick_counter % 4 = 0 := by rw [hcnt2, hc1]; omega
    obtain ⟨hs3, hc3, hp3⟩ := tick_noop_step m2 m3 p3 hn3 h3
    have hn4 : ¬ m3.tick_counter % 4 = 0 := by rw [hc3, hcnt2, hc1]; omega
    obtain ⟨hs4, hc4, hp4⟩ := tick_noop_step m3 m4 p4 hn4 h4
    refine ⟨Or.inr (Or.inl
      ⟨hs1, ⟨⟨eg, heg1, hg2⟩, ?_, hp2, hrest2⟩, hs3, hs4⟩), ?_⟩
    · rw [hg2]; exact pick_move_aux_orth m1.goal_pos eg
    · have hfin := hrest2
      rw [hs1.1] at hfin
      rw [hs1.2.2.1] at hfin
      rw [hs4.2.1, hs3.2.1, hfin, horig]

/-- A concrete 2×2 map about to move its goal from `(0,0)` toward `(1,1)`. -/
def m4w : Map_Obj :=
  { int_map := [[1, 1], [1, 1]], str_map := [[" . ", " . "], [" . ", " . "]],
    start_pos := (0, 0), goal_pos := (0, 0), end_goal_pos := some (1, 1),
    tmp_cell_value := 1, tick_counter := 0 }

/-- The state of `m4w` after its first (relocating) tick, parameterised by
the tick counter reached by the subsequent no-op ticks. -/
def m4wStep (c : Int) : Map_Obj :=
  { int_map := [[1, 1], [1, 1]], str_map := [[" . ", " . "], [" G ", " . "]],
    start_pos := (0, 0), goal_pos := (1, 0), end_goal_pos := some (1, 1),
    tmp_cell_value := 1, tick_counter := c }

/-- Witness for `C4_four_ticks_relocate_once`: four ticks on `m4w` relocate
the goal on the first call and are no-ops afterwards. -/
theorem C4_four_ticks_relocate_once_witness :
    ((relocStep m4w (m4wStep 1) (1, 0) ∧
        noopStep (m4wStep 1) (m4wStep 2) ∧
        noopStep (m4wStep 2) (m4wStep 3) ∧
        noopStep (m4wStep 3) (m4wStep 4)) ∨
      (noopStep m4w (m4wStep 1) ∧ relocStep (m4wStep 1) (m4wStep 2) (1, 0) ∧
        noopStep (m4wStep 2) (m4wStep 3) ∧
        noopStep (m4wStep 3) (m4wStep 4)) ∨
      (noopStep m4w (m4wStep 1) ∧ noopStep (m4wStep 1) (m4wStep 2) ∧
        relocStep (m4wStep 2) (m4wStep 3) (1, 0) ∧
        noopStep (m4wStep 3) (m4wStep 4)) ∨
      (noopStep m4w (m4wStep 1) ∧ noopStep (m4wStep 1) (m4wStep 2) ∧
        noopStep (m4wStep 2) (m4wStep 3) ∧
        relocStep (m4wStep 3) (m4wStep 4) (1, 0))) ∧
    get_cell_value (m4wStep 4).int_map m4w.goal_pos =
      get_cell_value m4w.int_map m4w.goal_pos :=
  C4_four_ticks_relocate_once m4w (m4wStep 1) (m4wStep 2) (m4wStep 3)
    (m4wStep 4) (1, 0) (1, 0) (1, 0) (1, 0) (1, 1) (by decide) (by decide)
    (by decide) (by decide) (by decide) (by decide) (by decide)
